import Mathlib

set_option maxHeartbeats 1000000

/-!
Verification of the chain-able MethodChain / ChainedMap core
(src/src/MethodChain.js and its concatenated ChainedMap base).

The JavaScript code is shallowly embedded: JS values are a first-order
inductive `JSVal`; every closure the engine creates is defunctionalized
into `FnCode` (each constructor carries exactly what the corresponding
source closure captures); parent chain objects live in a heap (a list of
`PObj` addressed by `JSVal.ref` indices); the spec accumulator is a
`MethodChain` record holding its ChainedMap store and parent link.
Fallible JS operations (TypeErrors from `Object.defineProperty`,
property creation on `undefined`, calling non-functions) are embedded
with `Except String`; method invocation uses a fuel-indexed interpreter
returning `Option`.
-/

namespace ChainAble

mutual

/-- JS runtime values, first order.  `ref r` is a reference to the chain
object stored at heap index `r`; `fn` is a (defunctionalized) function
object. -/
inductive JSVal : Type where
  | undefined : JSVal
  | null : JSVal
  | bool : Bool → JSVal
  | num : Int → JSVal
  | str : String → JSVal
  | arr : List JSVal → JSVal
  | obj : List (String × JSVal) → JSVal
  | fn : FnVal → JSVal
  | ref : Nat → JSVal

/-- A JS function object: its code plus the two expando flags the engine
writes onto function objects (`method.decorated = true` in
MethodChain._build, `defaultOnSet.defaulted = true` in
MethodChain._defaults). -/
inductive FnVal : Type where
  | mk : FnCode → Bool → Bool → FnVal

/-- Defunctionalized closures created by MethodChain.  Each constructor
carries the captured variables of the corresponding source closure:

* `defaultOnSet pref name` — `arg => parent.set(name, arg)` (_defaults)
* `defaultOnGet pref name` — `() => parent.get(name)` (_defaults)
* `autoIncCall pref name` — `() => parent.tap(name, num => num + 1)`
  (autoIncrement's factory)
* `defaultMethod pref defaultValue call` —
  `(arg = defaultValue) => call.call(parent, arg)` (_build)
* `bound target f` — `method.bind(bind)` (_build)
* `returnsWrapper pref refMethod returns callReturns` — the wrapper
  `function() { const result = ref.apply(parent, args); return
  isTrue(callReturns) ? returns.apply(parent, [result].concat(args))
  : returns }` (_build)
* `returnsFunction target` — decorate's
  `function returnsFunction(result, ...args) { return result || parentToDecorate }`
* `constFn v` — a caller-supplied handler that just returns `v`
  (stands for user `onCall`/`returns` callbacks)
* `factoryAutoInc` / `factoryDecorate target` — the factories queued by
  autoIncrement() and decorate()
* `collabFn tag` — functions produced by the external collaborators
  (validator / encase factories); their behaviour is outside this core. -/
inductive FnCode : Type where
  | defaultOnSet : Nat → String → FnCode
  | defaultOnGet : Nat → String → FnCode
  | autoIncCall : Nat → String → FnCode
  | defaultMethod : Nat → JSVal → JSVal → FnCode
  | bound : JSVal → FnVal → FnCode
  | returnsWrapper : Nat → JSVal → JSVal → JSVal → FnCode
  | returnsFunction : Nat → FnCode
  | constFn : JSVal → FnCode
  | factoryAutoInc : FnCode
  | factoryDecorate : Nat → FnCode
  | collabFn : String → FnCode

end

/-- Code component of a function object. -/
def FnVal.code : FnVal → FnCode
  | .mk c _ _ => c

/-- The `decorated` expando flag. -/
def FnVal.decoratedFlag : FnVal → Bool
  | .mk _ d _ => d

/-- The `defaulted` expando flag. -/
def FnVal.defaultedFlag : FnVal → Bool
  | .mk _ _ d => d

/-- JS truthiness (`if (v)`), as used throughout MethodChain for
branching.  Objects, arrays, functions and references are always truthy;
`0`, the empty string, `false`, `undefined` and `null` are falsy. -/
def truthy : JSVal → Bool
  | .undefined => false
  | .null => false
  | .bool b => b
  | .num n => n != 0
  | .str s => s != ""
  | .arr _ => true
  | .obj _ => true
  | .fn _ => true
  | .ref _ => true

/-- Modelled from the spec: `deps/is/true` is part of the excluded
capability-check predicate library ("pure boolean type queries",
spec section 6); `isTrue` holds exactly of the boolean `true`. -/
def isTrueJS : JSVal → Bool
  | .bool true => true
  | _ => false

/-- `v.defaulted` read on an arbitrary value: only function objects carry
the flag, any other value yields `undefined` (falsy). -/
def defaultedOf : JSVal → Bool
  | .fn f => f.defaultedFlag
  | _ => false

/-- Set the `decorated` expando flag on a function object. -/
def markFn : FnVal → FnVal
  | .mk c _ d => .mk c true d

/-- `method.decorated = true` (MethodChain._build): throws a TypeError on
`undefined`/`null`, sets the flag on function objects, and is a silent
no-op on other primitives (the module is sloppy-mode code).  Property
creation on plain objects/references is real in JS but no flag is read
back from them anywhere in the engine, so those values pass through. -/
def markDecorated : JSVal → Except String JSVal
  | .undefined => .error ("TypeError: Cannot create property on undefined")
  | .null => .error ("TypeError: Cannot create property on null")
  | .fn f => .ok (.fn (markFn f))
  | v => .ok v

/-- JS property-key coercion (ToString) for the values used as keys.
Compound values are approximated by their `Object.prototype.toString`
tags; the verified claims only use identifier (string) keys. -/
def propKey : JSVal → String
  | .undefined => "undefined"
  | .null => "null"
  | .bool b => if b then "true" else "false"
  | .num n => toString n
  | .str s => s
  | .arr _ => "[object Array]"
  | .obj _ => "[object Object]"
  | .fn _ => "[function]"
  | .ref _ => "[object Object]"

/-- Key-unique association update with JS `Map.set` semantics: an
existing key keeps its position, a new key is appended. -/
def assocSet {α : Type} (l : List (String × α)) (k : String) (v : α) :
    List (String × α) :=
  match l with
  | [] => [(k, v)]
  | (k', v') :: rest =>
    if k' = k then (k, v) :: rest else (k', v') :: assocSet rest k v

/-- `Map.get`: `undefined` when the key is absent. -/
def assocGet (l : List (String × JSVal)) (k : String) : JSVal :=
  match l with
  | [] => .undefined
  | (k', v') :: rest => if k' = k then v' else assocGet rest k

/-- Association lookup returning `Option` (used for property tables). -/
def alistGet {α : Type} (l : List (String × α)) (k : String) : Option α :=
  match l with
  | [] => none
  | (k', v') :: rest => if k' = k then some v' else alistGet rest k

/-- A JS property descriptor.  `none` fields are absent attributes
(`undefined` reads). -/
structure Descriptor where
  value : Option JSVal
  get : Option JSVal
  set : Option JSVal
  writable : Option Bool
  enumerable : Option Bool
  configurable : Option Bool

/-- The descriptor with every attribute absent. -/
def Descriptor.empty : Descriptor := ⟨none, none, none, none, none, none⟩

/-- A chain object (a `ChainedMap` style parent): its ChainedMap `store`,
its own properties as descriptors, the values reachable through its
prototype chain, the decoration registry / shorthand registry kept by
the `meta` facility, and whether `meta` has been attached. -/
structure PObj where
  parentRef : Option Nat
  store : List (String × JSVal)
  props : List (String × Descriptor)
  protoProps : List (String × JSVal)
  metaDecorated : List String
  metaShorthands : List (String × JSVal)
  hasMeta : Bool

/-- A fresh chain object. -/
def pobjEmpty : PObj := ⟨none, [], [], [], [], [], false⟩

/-- Replace the object at a heap index (out-of-range updates are
dropped; the claims always operate in range). -/
def heapMod : List PObj → Nat → (PObj → PObj) → List PObj
  | [], _, _ => []
  | p :: rest, 0, f => f p :: rest
  | p :: rest, n + 1, f => p :: heapMod rest n f

/-- Read a key of a heap object's ChainedMap store. -/
def storeGet (heap : List PObj) (pref : Nat) (k : String) : JSVal :=
  match heap[pref]? with
  | some p => assocGet p.store k
  | none => .undefined

/-- JS property read `parent[key]` on a heap object: an own data
property's value, else the prototype chain.  Getter invocation on own
accessor properties is not modelled (the verified claims read data
properties only); an own accessor reads as `undefined`. -/
def jsGetProp (heap : List PObj) (pref : Nat) (k : String) : JSVal :=
  match heap[pref]? with
  | none => .undefined
  | some p =>
    match alistGet p.props k with
    | some d =>
      match d.value with
      | some v => v
      | none => .undefined
    | none => assocGet p.protoProps k

/-- Modelled from the spec: `deps/to-arr` is not under src/.  It turns
anything into an array: arrays pass through, and — as the spec's
idempotence property for `build()` requires a consumed spec (whose
`names` read back `undefined`) to install nothing — `undefined`/`null`
become the empty array; any other value becomes a singleton.  (The
comma-splitting of strings the real utility also performs is not needed
by any claim.) -/
def toarr : JSVal → JSVal
  | .arr xs => .arr xs
  | .undefined => .arr []
  | .null => .arr []
  | v => .arr [v]

/-- Modelled from the spec: the deep-merge collaborator (`dopemerge`,
spec section 6) restricted to the shapes `tap('alias', …)` and
`tap('factories', …)` feed it: merging into `undefined`/`null` yields
the new value, two sequences concatenate, anything else is replaced. -/
def dopemergeArr : JSVal → JSVal → JSVal
  | .undefined, x => x
  | .null, x => x
  | .arr a, .arr b => .arr (a ++ b)
  | _, x => x

/-- Modelled from the spec: the case-normalization collaborator
(`deps/camel-case`) converts hyphenated tokens to camel form. -/
def capitalizeFirst (s : String) : String :=
  match s.data with
  | [] => ""
  | c :: cs => String.mk (c.toUpper :: cs)

/-- Modelled from the spec: hyphen-separated tokens are joined with each
later token capitalized. -/
def camelCaseStr (s : String) : String :=
  match s.splitOn ("-") with
  | [] => s
  | h :: t => h ++ String.join (t.map capitalizeFirst)

/-- The spec accumulator: a MethodChain is a ChainedMap, so it owns a
key-unique `store` and a `parent` link (released by `build()`). -/
structure MethodChain where
  store : List (String × JSVal)
  parent : Option Nat

/-- `ChainedMap.set` — overwrite semantics on the accumulator store. -/
def MethodChain.set (m : MethodChain) (k : String) (v : JSVal) : MethodChain :=
  { m with store := assocSet m.store k v }

/-- `ChainedMap.get` on the accumulator store. -/
def MethodChain.get (m : MethodChain) (k : String) : JSVal :=
  assocGet m.store k

/-- `this.name = methods => … set('names', names)` for identifier or
sequence input.  (The mapping form of `name()` additionally queues
per-key factories; no claim exercises it and it is not modelled.) -/
def MethodChain.name (m : MethodChain) (names : JSVal) : MethodChain :=
  m.set ("names") names

/-- `this.onSet = x => set('set', x)`. -/
def MethodChain.onSet (m : MethodChain) (x : JSVal) : MethodChain :=
  m.set ("set") x

/-- `this.onGet = x => set('get', x)`. -/
def MethodChain.onGet (m : MethodChain) (x : JSVal) : MethodChain :=
  m.set ("get") x

/-- `this.onCall = x => set('call', x)`. -/
def MethodChain.onCall (m : MethodChain) (x : JSVal) : MethodChain :=
  m.set ("call") x

/-- `this.returns = (x, callReturns) =>
set('returns', x || parent).set('callReturns', callReturns)`.
The JS call `returns(x)` passes `undefined` for the second argument. -/
def MethodChain.returns (m : MethodChain) (x : JSVal) (callReturns : JSVal) :
    MethodChain :=
  let xv := if truthy x then x
    else match m.parent with
      | some p => .ref p
      | none => .undefined
  (m.set ("returns") xv).set ("callReturns") callReturns

/-- The `callReturns` shorthand installed by
`extend([… 'callReturns' …])`: `value => set('callReturns', value)`. -/
def MethodChain.callReturns (m : MethodChain) (v : JSVal) : MethodChain :=
  m.set ("callReturns") v

/-- The `decorationTarget` shorthand installed by `extend`. -/
def MethodChain.decorationTarget (m : MethodChain) (v : JSVal) : MethodChain :=
  m.set ("decorationTarget") v

/-- The `initial` shorthand installed by `extend`. -/
def MethodChain.initial (m : MethodChain) (v : JSVal) : MethodChain :=
  m.set ("initial") v

/-- `this.define = (x = true) => set('define', x)` (argument explicit). -/
def MethodChain.define (m : MethodChain) (x : JSVal) : MethodChain :=
  m.set ("define") x

/-- `this.getSet = (x = true) => set('getSet', x)` (argument explicit). -/
def MethodChain.getSet (m : MethodChain) (x : JSVal) : MethodChain :=
  m.set ("getSet") x

/-- `this.factory = factory =>
this.tap('factories', (old, merge) => merge(old, toarr(factory)))`. -/
def MethodChain.factory (m : MethodChain) (f : JSVal) : MethodChain :=
  m.set ("factories") (dopemergeArr (m.get ("factories")) (toarr f))

/-- `this.alias = aliases =>
this.tap('alias', (old, merge) => merge(old, toarr(aliases)))`. -/
def MethodChain.alias (m : MethodChain) (aliases : JSVal) : MethodChain :=
  m.set ("alias") (dopemergeArr (m.get ("alias")) (toarr aliases))

/-- `autoIncrement()` queues its factory; the factory body runs during
synthesis (see `runFactory`). -/
def MethodChain.autoIncrement (m : MethodChain) : MethodChain :=
  m.factory (.fn (.mk .factoryAutoInc false false))

/-- The `parent[x]` read performed by `encase`: the ctor-captured parent
looked up under the coerced key of `x`. -/
def encaseLookup (m : MethodChain) (heap : List PObj) (x : JSVal) : JSVal :=
  match m.parent with
  | some pr => jsGetProp heap pr (propKey x)
  | none => .undefined

/-- JS short-circuit `a || b`. -/
def jsOr (a b : JSVal) : JSVal :=
  if truthy a then a else b

/-- `this.encase = x => set('encase', parent[x] || x || true)`. -/
def MethodChain.encase (m : MethodChain) (heap : List PObj) (x : JSVal) :
    MethodChain :=
  m.set ("encase") (jsOr (jsOr (encaseLookup m heap x) x) (.bool true))

/-- `decorate(parentToDecorate)`: a falsy argument falls back to
`this.parent.parent`; with no resolvable target the production-mode
policy is a silent no-op returning the accumulator unchanged (the
development-mode throw of the missing `deps/env/dev` flag is modelled
as disabled, per spec section 7).  Otherwise the target is stored as
`decorationTarget`, a `meta` registry is attached to the target when
absent, and the decoration factory is queued. -/
def MethodChain.decorate (m : MethodChain) (heap : List PObj)
    (target : JSVal) : MethodChain × List PObj :=
  let tv : JSVal :=
    if truthy target then target
    else match m.parent with
      | some pr =>
        match heap[pr]? with
        | some p =>
          match p.parentRef with
          | some g => .ref g
          | none => .undefined
        | none => .undefined
      | none => .undefined
  match tv with
  | .ref t =>
    let m1 := m.decorationTarget (.ref t)
    let heap1 := heapMod heap t
      (fun p => if p.hasMeta then p else { p with hasMeta := true })
    (m1.factory (.fn (.mk (.factoryDecorate t) false false)), heap1)
  | _ => (m, heap)

/-- `Object.assign(existing, descriptor)` restricted to descriptor
records: attributes present on the new partial descriptor override,
absent attributes keep the existing ones. -/
def assignDescriptor (e d : Descriptor) : Descriptor :=
  { value := d.value <|> e.value
    get := d.get <|> e.get
    set := d.set <|> e.set
    writable := d.writable <|> e.writable
    enumerable := d.enumerable <|> e.enumerable
    configurable := d.configurable <|> e.configurable }

/-- Truthiness of an optional attribute: absent reads as `undefined`. -/
def optTruthy : Option JSVal → Bool
  | some v => truthy v
  | none => false

/-- The descriptor resolution of MethodChain._build:
`if (existing) descriptor = ObjectAssign(existing, descriptor)`, then
`if (descriptor.value && descriptor.get) delete descriptor.value`, then
`if (!isUndefined(descriptor.writable)) delete descriptor.writable`. -/
def resolveDescriptor (existing : Option Descriptor) (dRaw : Descriptor) :
    Descriptor :=
  let d :=
    match existing with
    | some e => assignDescriptor e dRaw
    | none => dRaw
  let d1 :=
    if optTruthy d.value && optTruthy d.get then { d with value := none }
    else d
  if d1.writable.isSome then { d1 with writable := none } else d1

/-- Fill absent attributes of a descriptor defined on a fresh name with
the `Object.defineProperty` defaults. -/
def completeDescriptor (d : Descriptor) : Descriptor :=
  if d.get.isSome || d.set.isSome then
    { get := some (d.get.getD .undefined), set := some (d.set.getD .undefined)
      value := none, writable := none
      enumerable := some (d.enumerable.getD false)
      configurable := some (d.configurable.getD false) }
  else
    { value := some (d.value.getD .undefined)
      writable := some (d.writable.getD false)
      get := none, set := none
      enumerable := some (d.enumerable.getD false)
      configurable := some (d.configurable.getD false) }

/-- `Object.defineProperty` on an attribute subset over an existing
property: supplied attributes replace, the rest persist; supplying
accessor attributes turns a data property into an accessor one and
conversely. -/
def mergeDefine (old d : Descriptor) : Descriptor :=
  if d.get.isSome || d.set.isSome then
    { get := d.get <|> old.get, set := d.set <|> old.set
      value := none, writable := none
      enumerable := d.enumerable <|> old.enumerable
      configurable := d.configurable <|> old.configurable }
  else if d.value.isSome || d.writable.isSome then
    { value := d.value <|> old.value, writable := d.writable <|> old.writable
      get := none, set := none
      enumerable := d.enumerable <|> old.enumerable
      configurable := d.configurable <|> old.configurable }
  else
    { old with
      enumerable := d.enumerable <|> old.enumerable
      configurable := d.configurable <|> old.configurable }

/-- `ObjectDefine(target, name, descriptor)`: raises the JS TypeError
when the descriptor mixes a value/writable attribute with an accessor
attribute, or on redefinition of a non-configurable property. -/
def defineProperty (p : PObj) (name : String) (d : Descriptor) :
    Except String PObj :=
  if (d.value.isSome || d.writable.isSome) && (d.get.isSome || d.set.isSome)
  then .error ("TypeError: Invalid property descriptor.")
  else
    match alistGet p.props name with
    | some old =>
      if old.configurable = some false then
        .error ("TypeError: Cannot redefine property")
      else .ok { p with props := assocSet p.props name (mergeDefine old d) }
    | none => .ok { p with props := assocSet p.props name (completeDescriptor d) }

/-- Outcome of the conflict-detection prologue of `_build`. -/
inductive CaptureOut : Type where
  | skip : CaptureOut
  | go : MethodChain → JSVal → Option Descriptor → CaptureOut

/-- Conflict detection of MethodChain._build (its first two branches):
an own property's descriptor is captured; a non-configurable one skips
the name silently; otherwise — or when a truthy value is reachable
through the prototype chain — the current value is reused as the
method, marked `decorated`, and seeded as the `call` and `set`
handlers. -/
def captureExisting (name : String) (p : PObj) (m : MethodChain) :
    Except String CaptureOut :=
  match alistGet p.props name with
  | some existing =>
    if existing.configurable = some false then .ok .skip
    else
      match markDecorated (match existing.value with
        | some v => v
        | none => .undefined) with
      | .error e => .error e
      | .ok mv => .ok (.go ((m.onCall mv).onSet mv) mv (some existing))
  | none =>
    let inher := assocGet p.protoProps name
    if truthy inher then
      match markDecorated inher with
      | .error e => .error e
      | .ok mv => .ok (.go ((m.onCall mv).onSet mv) mv none)
    else .ok (.go m .undefined none)

/-- MethodChain._defaults: install the tagged default get/call/set
handlers for whichever of them is falsy or was itself defaulted. -/
def MethodChain._defaults (name : String) (pref : Nat) (m : MethodChain) :
    MethodChain :=
  let dOnSet : JSVal := .fn (.mk (.defaultOnSet pref name) false true)
  let dOnGet : JSVal := .fn (.mk (.defaultOnGet pref name) false true)
  let g := m.get ("get")
  let c := m.get ("call")
  let s := m.get ("set")
  let m1 := if !truthy g || defaultedOf g then m.onGet dOnGet else m
  let m2 := if !truthy c || defaultedOf c then m1.onCall dOnSet else m1
  if !truthy s || defaultedOf s then m2.onSet dOnSet else m2

/-- Run one queued factory with `(name, parent)`.  The two factories the
engine itself queues are interpreted: autoIncrement's factory sets
`initial` to `0` and `call` to the increment closure; decorate's
factory records the name in the target's decoration registry and wires
`returns`/`callReturns` (note `returns(x)` sets `callReturns` to
`undefined` before the `callReturns` shorthand overwrites it).  Other
values are not factories the engine creates and are ignored. -/
def runFactory (name : String) (pref : Nat)
    (st : MethodChain × List PObj) (f : JSVal) : MethodChain × List PObj :=
  match f with
  | .fn (.mk .factoryAutoInc _ _) =>
    ((st.1.set ("initial") (.num 0)).set ("call")
        (.fn (.mk (.autoIncCall pref name) false false)),
      st.2)
  | .fn (.mk (.factoryDecorate t) _ _) =>
    let heap1 := heapMod st.2 t
      (fun p => { p with metaDecorated := p.metaDecorated ++ [name] })
    (((st.1.returns (.ref t) .undefined).callReturns
        (.fn (.mk (.returnsFunction t) false false))),
      heap1)
  | _ => st

/-- `getSetFactory` plus the shorthand-registry record of _build's
getter/setter branch: install `setName` / `getName` methods on the
target and register the setter when the target has a `meta` registry. -/
def getSetInstall (name : String) (getV setV : JSVal) (p : PObj) : PObj :=
  let p1 := if p.hasMeta then
      { p with metaShorthands := p.metaShorthands ++ [(name, setV)] }
    else p
  let dataProp : JSVal → Descriptor := fun v =>
    ⟨some v, none, none, some true, some true, some true⟩
  let withSet := assocSet p1.props (camelCaseStr ("set-" ++ name)) (dataProp setV)
  let withGet := assocSet withSet (camelCaseStr ("get-" ++ name)) (dataProp getV)
  { p1 with props := withGet }

/-- `aliasFactory(name, target, aliases)`: copy the freshly installed
descriptor of `name` onto each alias of the target. -/
def aliasInstall (aliases : List JSVal) (name : String) (tref : Nat)
    (heap : List PObj) : Except String (List PObj) :=
  match aliases with
  | [] => .ok heap
  | a :: rest =>
    match heap[tref]? with
    | none => .error ("TypeError: target is not an object")
    | some tp =>
      match alistGet tp.props name with
      | none => aliasInstall rest name tref heap
      | some d =>
        match defineProperty tp (propKey a) d with
        | .error e => .error e
        | .ok tp' => aliasInstall rest name tref (heapMod heap tref (fun _ => tp'))

/-- MethodChain._build, one name: conflict detection
(`captureExisting`), default wiring (`MethodChain._defaults`), factory
expansion (`runFactory`), type/encase composition (the external
collaborator functions are opaque `collabFn` values), default-method
synthesis, bind / returns wrapping, `initial` seeding of the parent
store, descriptor assembly (`resolveDescriptor`) and installation onto
the decoration target, getter/setter shorthands, and aliases.  The
development-only renaming block of the source is elided (it only sets
`Function.name`). -/
def MethodChain._build (name : String) (pref : Nat) (m : MethodChain)
    (heap : List PObj) : Except String (MethodChain × List PObj) :=
  match heap[pref]? with
  | none => .error ("TypeError: parent is not an object")
  | some p =>
    match captureExisting name p m with
    | .error e => .error e
    | .ok .skip => .ok (m, heap)
    | .ok (.go m1 method0 existing) =>
      let m2 := MethodChain._defaults name pref m1
      let fs :=
        match m2.get ("factories") with
        | .arr fsl => fsl
        | _ => []
      let st3 := fs.foldl (fun st f => runFactory name pref st f) (m2, heap)
      let m3 := st3.1
      let heap1 := st3.2
      let typeEncase : MethodChain × JSVal :=
        if truthy (m3.get ("type")) then
          let vm : JSVal := .fn (.mk (.collabFn ("validator:" ++ name)) false false)
          ((m3.set ("call") vm).set ("set") vm, method0)
        else if truthy (m3.get ("encase")) then
          let em : JSVal := .fn (.mk (.collabFn ("encase:" ++ name)) false false)
          ((m3.set ("call") em).set ("set") em, em)
        else (m3, method0)
      let m4 := typeEncase.1
      let method1 := typeEncase.2
      let getV := m4.get ("get")
      let setV := m4.get ("set")
      let callV := m4.get ("call")
      let initialV := m4.get ("initial")
      let bindV := m4.get ("bind")
      let returnsV := m4.get ("returns")
      let callReturnsV := m4.get ("callReturns")
      let defaultValue := m4.get ("default")
      let method2 :=
        if truthy method1 then method1
        else .fn (.mk (.defaultMethod pref defaultValue callV) false false)
      let step3 : Except String JSVal :=
        if truthy bindV then
          match method2 with
          | .fn f => .ok (.fn (.mk (.bound bindV f) false false))
          | _ => .error ("TypeError: method.bind is not a function")
        else .ok method2
      match step3 with
      | .error e => .error e
      | .ok method3 =>
        let method4 :=
          if truthy returnsV then
            .fn (.mk (.returnsWrapper pref method3 returnsV callReturnsV) false false)
          else method3
        let heap2 :=
          match initialV with
          | .undefined => heap1
          | v => heapMod heap1 pref
              (fun q => { q with store := assocSet q.store name v })
        let dRaw : Descriptor :=
          if truthy (m4.get ("define")) then
            ⟨none, some getV, some setV, none, none, none⟩
          else ⟨some method4, none, none, none, none, none⟩
        let d2 := resolveDescriptor existing dRaw
        let tref :=
          match m4.get ("decorationTarget") with
          | .ref t => t
          | _ => pref
        match heap2[tref]? with
        | none => .error ("TypeError: target is not an object")
        | some tp =>
          match defineProperty tp name d2 with
          | .error e => .error e
          | .ok tp' =>
            let heap3 := heapMod heap2 tref (fun _ => tp')
            let heap4 :=
              if truthy (m4.get ("getSet")) then
                heapMod heap3 tref (getSetInstall name getV setV)
              else heap3
            match m4.get ("alias") with
            | .arr as' =>
              match aliasInstall as' name tref heap4 with
              | .error e => .error e
              | .ok heap5 => .ok (m4, heap5)
            | _ => .ok (m4, heap4)

/-- The per-name loop of `build()`: camel-case the name when requested
and hand it to `_build` with the owning parent (reading a name from a
released parent reproduces the JS TypeError). -/
def buildNames : List JSVal → Bool → Option Nat → MethodChain → List PObj →
    Except String (MethodChain × List PObj)
  | [], _, _, m, heap => .ok (m, heap)
  | nv :: rest, camel, pOpt, m, heap =>
    match pOpt with
    | none => .error ("TypeError: Cannot convert undefined or null to object")
    | some pref =>
      let nm0 := propKey nv
      let nm := if camel then camelCaseStr nm0 else nm0
      match MethodChain._build nm pref m heap with
      | .error e => .error e
      | .ok (m1, h1) => buildNames rest camel pOpt m1 h1

/-- `build(returnValue)`: materialize every resolved name, then consume
the spec — `this.clear()` empties the store, `delete this.parent`
releases the parent link, and `markForGarbageCollection` (modelled from
the spec: `deps/gc` is missing from src/ and only hints reclamation)
leaves no further observable state.  Returns `returnValue` when given,
else the owning parent. -/
def MethodChain.build (m : MethodChain) (heap : List PObj)
    (returnValue : JSVal) : Except String (MethodChain × List PObj × JSVal) :=
  let parentOpt := m.parent
  let names :=
    match toarr (m.get ("names")) with
    | .arr xs => xs
    | _ => []
  let shouldCamel := truthy (m.get ("camel"))
  match buildNames names shouldCamel parentOpt m heap with
  | .error e => .error e
  | .ok (_, heap') =>
    let out :=
      match returnValue with
      | .undefined =>
        match parentOpt with
        | some pr => .ref pr
        | none => .undefined
      | v => v
    .ok (⟨[], none⟩, heap', out)

/-- Fuel-indexed interpreter for the defunctionalized closures.  `none`
means the computation is outside the modelled fragment (external
collaborator functions, calling a non-function, NaN arithmetic) or out
of fuel. -/
def applyFn : Nat → List PObj → FnVal → JSVal → List JSVal →
    Option (JSVal × List PObj)
  | 0, _, _, _, _ => none
  | fuel + 1, heap, .mk code _ _, _, args =>
    match code with
    | .defaultOnSet pref name =>
      match heap[pref]? with
      | none => none
      | some _ =>
        some (.ref pref,
          heapMod heap pref
            (fun q => { q with store := assocSet q.store name (args.headD .undefined) }))
    | .defaultOnGet pref name =>
      match heap[pref]? with
      | none => none
      | some p => some (assocGet p.store name, heap)
    | .autoIncCall pref name =>
      match heap[pref]? with
      | none => none
      | some p =>
        match assocGet p.store name with
        | .num n =>
          some (.ref pref,
            heapMod heap pref
              (fun q => { q with store := assocSet q.store name (.num (n + 1)) }))
        | _ => none
    | .defaultMethod pref defVal call =>
      let arg :=
        match args.head? with
        | none => defVal
        | some .undefined => defVal
        | some v => v
      match call with
      | .fn g => applyFn fuel heap g (.ref pref) [arg]
      | _ => none
    | .bound target g => applyFn fuel heap g target args
    | .returnsWrapper pref refM rets callRets =>
      match refM with
      | .fn g =>
        match applyFn fuel heap g (.ref pref) args with
        | none => none
        | some (result, heap') =>
          if isTrueJS callRets then
            match rets with
            | .fn rg => applyFn fuel heap' rg (.ref pref) (result :: args)
            | _ => none
          else some (rets, heap')
      | _ => none
    | .returnsFunction target =>
      let r := args.headD .undefined
      some (if truthy r then r else .ref target, heap)
    | .constFn v => some (v, heap)
    | .factoryAutoInc => none
    | .factoryDecorate _ => none
    | .collabFn _ => none

/-- Invoke an installed method: read the target's own data property and
apply its function value with the target as receiver. -/
def invokeProp (fuel : Nat) (heap : List PObj) (pref : Nat) (name : String)
    (args : List JSVal) : Option (JSVal × List PObj) :=
  match heap[pref]? with
  | none => none
  | some p =>
    match alistGet p.props name with
    | none => none
    | some d =>
      match d.value with
      | some (.fn f) => applyFn fuel heap f (.ref pref) args
      | _ => none

/-- `ChainedMap.clean`'s per-value drop test, mirroring the source
cascade: `undefined`/`null`, then an empty array, then a value whose
`Object.prototype.toString` tag is `[object Object]` with no keys. -/
def dropV : JSVal → Bool
  | .undefined => true
  | .null => true
  | .arr xs => xs.isEmpty
  | .obj fs => fs.isEmpty
  | _ => false

/-- `ChainedMap.clean(obj)`: reduce over the keys, skipping dropped
values and re-writing the kept entries onto a fresh accumulator. -/
def ChainedMap.clean (o : List (String × JSVal)) : List (String × JSVal) :=
  o.foldl (fun acc kv => if dropV kv.2 then acc else assocSet acc kv.1 kv.2) []

/-- Follows the spec's words (claim C9): an entry is kept exactly when
its value is not undefined, not null, not an empty sequence, and not an
empty plain mapping; all other values — including falsy ones — are
kept. -/
def specKeep : JSVal → Bool
  | .undefined => false
  | .null => false
  | .arr xs => !xs.isEmpty
  | .obj fs => !fs.isEmpty
  | _ => true

/-- A fresh accumulator owned by the parent at heap index 0, as produced
by `new MethodChain(parent)`. -/
def mcFresh : MethodChain := ⟨[], some 0⟩

/-- Claim C5 scenario: `name('eh')` on a fresh accumulator. -/
def c5_m : MethodChain := MethodChain.name mcFresh (.str ("eh"))

/-- Heap after `c5_m.build()` against a single fresh parent. -/
def c5_h1 : List PObj :=
  match MethodChain.build c5_m [pobjEmpty] .undefined with
  | .ok (_, h, _) => h
  | .error _ => []

/-- Heap after the subsequent `parent.eh(5)`. -/
def c5_h2 : List PObj :=
  match invokeProp 9 c5_h1 0 ("eh") [.num 5] with
  | some (_, h) => h
  | none => []

/-- C5: with no explicit handlers configured, building `name('eh')` and
then invoking `parent.eh(5)` writes `5` into the owning parent's store
under the key `'eh'`, so a subsequent store read of `'eh'` yields `5`
(the installed default method routes through the tagged default
`onCall`, which is `arg => parent.set(name, arg)`). -/
theorem C5_default_wiring :
    MethodChain.build c5_m [pobjEmpty] .undefined = .ok (⟨[], none⟩, c5_h1, .ref 0) ∧
    invokeProp 9 c5_h1 0 ("eh") [.num 5] = some (.ref 0, c5_h2) ∧
    storeGet c5_h2 0 ("eh") = .num 5 :=
  ⟨rfl, rfl, rfl⟩

/-- Claim C6 scenario: `name('count').autoIncrement()`. -/
def c6_m : MethodChain := (MethodChain.name mcFresh (.str ("count"))).autoIncrement

/-- Heap after `c6_m.build()`. -/
def c6_h1 : List PObj :=
  match MethodChain.build c6_m [pobjEmpty] .undefined with
  | .ok (_, h, _) => h
  | .error _ => []

/-- Heap after the first `parent.count()`. -/
def c6_h2 : List PObj :=
  match invokeProp 9 c6_h1 0 ("count") [] with
  | some (_, h) => h
  | none => []

/-- Heap after the second `parent.count()`. -/
def c6_h3 : List PObj :=
  match invokeProp 9 c6_h2 0 ("count") [] with
  | some (_, h) => h
  | none => []

/-- C6: building `name('count').autoIncrement()` installs a method whose
factory seeds the stored value to `0` before any call, each call
increments the stored value by one, and after calling `parent.count()`
twice the parent's store under `'count'` reads `2`. -/
theorem C6_autoIncrement :
    MethodChain.build c6_m [pobjEmpty] .undefined = .ok (⟨[], none⟩, c6_h1, .ref 0) ∧
    storeGet c6_h1 0 ("count") = .num 0 ∧
    invokeProp 9 c6_h1 0 ("count") [] = some (.ref 0, c6_h2) ∧
    storeGet c6_h2 0 ("count") = .num 1 ∧
    invokeProp 9 c6_h2 0 ("count") [] = some (.ref 0, c6_h3) ∧
    storeGet c6_h3 0 ("count") = .num 2 :=
  ⟨rfl, rfl, rfl, rfl, rfl, rfl⟩

/-- C2: materialization consumes the spec exactly once — whenever
`build()` completes, the returned accumulator has an empty store and a
released parent link, and running `build()` again on that consumed
accumulator is a no-op: it succeeds, it leaves every heap object (hence
every target's properties) unchanged, and it returns `undefined` for
the default return. -/
theorem C2_consumed_once (m : MethodChain) (heap : List PObj) (rv : JSVal)
    (m' : MethodChain) (h' : List PObj) (out : JSVal)
    (hb : MethodChain.build m heap rv = .ok (m', h', out)) :
    (m'.store = [] ∧ m'.parent = none) ∧
    MethodChain.build m' h' .undefined = .ok (m', h', .undefined) := by
  simp only [MethodChain.build] at hb
  split at hb
  · exact Except.noConfusion hb
  · simp only [Except.ok.injEq, Prod.mk.injEq] at hb
    obtain ⟨h1, h2, h3⟩ := hb
    subst h1
    subst h2
    subst h3
    exact ⟨⟨rfl, rfl⟩, rfl⟩

/-- Claim C2 witness scenario: `name('w')` on a fresh accumulator. -/
def c2_m : MethodChain := MethodChain.name mcFresh (.str ("w"))

/-- Heap after `c2_m.build()`. -/
def c2_h1 : List PObj :=
  match MethodChain.build c2_m [pobjEmpty] .undefined with
  | .ok (_, h, _) => h
  | .error _ => []

/-- Witness for C2 at a concrete built spec. -/
theorem C2_consumed_once_witness :
    (((⟨[], none⟩ : MethodChain).store = [] ∧
      (⟨[], none⟩ : MethodChain).parent = none) ∧
     MethodChain.build ⟨[], none⟩ c2_h1 .undefined = .ok (⟨[], none⟩, c2_h1, .undefined)) :=
  C2_consumed_once c2_m [pobjEmpty] .undefined ⟨[], none⟩ c2_h1 (.ref 0) rfl

/-- C4: when the target already owns a property for a name being built
and that property's descriptor is non-configurable, the name is
silently skipped — `_build` succeeds and both the accumulator and the
whole heap (in particular the target's existing property) are returned
unchanged. -/
theorem C4_nonconfigurable_skipped (name : String) (pref : Nat)
    (m : MethodChain) (heap : List PObj) (p : PObj) (d : Descriptor)
    (hp : heap[pref]? = some p)
    (hd : alistGet p.props name = some d)
    (hc : d.configurable = some false) :
    MethodChain._build name pref m heap = .ok (m, heap) := by
  have hcap : captureExisting name p m = .ok CaptureOut.skip := by
    unfold captureExisting
    simp only [hd, hc]
    simp
  unfold MethodChain._build
  simp only [hp, hcap]

/-- Claim C4 witness descriptor: a frozen own property. -/
def c4_d : Descriptor :=
  ⟨some (.num 1), none, none, some false, some true, some false⟩

/-- Claim C4 witness parent: owns a non-configurable `'x'`. -/
def c4_p : PObj := { pobjEmpty with props := [(("x"), c4_d)] }

/-- Witness for C4 at a concrete frozen property. -/
theorem C4_nonconfigurable_skipped_witness :
    MethodChain._build ("x") 0 mcFresh [c4_p] = .ok (mcFresh, [c4_p]) :=
  C4_nonconfigurable_skipped ("x") 0 mcFresh [c4_p] c4_p c4_d rfl rfl rfl

/-- C10: during synthesis of a name, when the target does not own a
property of that name but a truthy value (here a function object, the
code's use case) is reachable through the prototype chain, the conflict
detection step of `_build` reuses it: it is marked `decorated` and
seeded as both the `call` and the `set` handler of the spec store —
`captureExisting` runs before `_defaults`, so this happens before
default wiring. -/
theorem C10_prototype_reuse (name : String) (p : PObj) (m : MethodChain)
    (f : FnVal)
    (hOwn : alistGet p.props name = none)
    (hProto : assocGet p.protoProps name = .fn f) :
    captureExisting name p m =
      .ok (.go ((m.onCall (.fn (markFn f))).onSet (.fn (markFn f)))
        (.fn (markFn f)) none) := by
  unfold captureExisting
  simp only [hOwn, hProto]
  simp [truthy, markDecorated]

/-- Claim C10 witness method inherited through the prototype chain. -/
def c10_f : FnVal := .mk (.constFn .null) false false

/-- Claim C10 witness parent: no own `'m'`, an inherited `'m'`. -/
def c10_p : PObj := { pobjEmpty with protoProps := [(("m"), .fn c10_f)] }

/-- Witness for C10 at a concrete inherited method. -/
theorem C10_prototype_reuse_witness :
    captureExisting ("m") c10_p mcFresh =
      .ok (.go ((mcFresh.onCall (.fn (markFn c10_f))).onSet (.fn (markFn c10_f)))
        (.fn (markFn c10_f)) none) :=
  C10_prototype_reuse ("m") c10_p mcFresh c10_f rfl rfl

/-- C8: for every argument `x`, `encase(x)` stores as the encase
configuration `parent[x]` when that read is truthy ("resolves on the
parent"), else `x` itself when truthy, else `true` — the `||` chain of
the source written out as the claim's three-way case split. -/
theorem C8_encase_stores (m : MethodChain) (heap : List PObj) (x : JSVal) :
    MethodChain.encase m heap x =
      m.set ("encase")
        (if truthy (encaseLookup m heap x) then encaseLookup m heap x
         else if truthy x then x
         else .bool true) := by
  unfold MethodChain.encase jsOr
  cases h1 : truthy (encaseLookup m heap x) <;>
    cases h2 : truthy x <;> simp [h1, h2]

/-- Claim C7 existing descriptor: a pre-existing own data property whose
value is the falsy `0`. -/
def c7_e : Descriptor :=
  ⟨some (.num 0), none, none, some true, some true, some true⟩

/-- Claim C7 raw accessor descriptor as `_build` assembles it in
getter/setter mode with the default handlers. -/
def c7_raw : Descriptor :=
  ⟨none, some (.fn (.mk (.defaultOnGet 0 ("z")) false true)),
    some (.fn (.mk (.defaultOnSet 0 ("z")) false true)), none, none, none⟩

/-- Claim C7 parent: owns a configurable data property `'z'` with the
falsy value `0`. -/
def c7_p : PObj := { pobjEmpty with props := [(("z"), c7_e)] }

/-- Claim C7 spec: `name('z').define()`. -/
def c7_m : MethodChain :=
  (MethodChain.name mcFresh (.str ("z"))).define (.bool true)

/-- Counterexample to C7 as stated: merging the accessor pair over a
pre-existing data descriptor whose value is falsy (`0`) leaves BOTH the
value and the accessor attributes on the synthesized descriptor —
`delete descriptor.value` is guarded by the truthiness test
`descriptor.value && descriptor.get` — and installing it surfaces the
`Object.defineProperty` TypeError to the caller instead of resolving
the conflict silently. -/
theorem C7_counterexample :
    (resolveDescriptor (some c7_e) c7_raw).value.isSome = true ∧
    (resolveDescriptor (some c7_e) c7_raw).get.isSome = true ∧
    MethodChain.build c7_m [c7_p] .undefined =
      .error ("TypeError: Invalid property descriptor.") :=
  ⟨rfl, rfl, rfl⟩

/-- C7 amended: when, after merging with a pre-existing descriptor, the
merged value attribute is truthy and a truthy accessor (get) is
present, the value attribute is discarded, the accessor pair is kept
unchanged, and the writable attribute is always discarded; only a falsy
merged value (such as `0`) escapes the deletion and then surfaces a
TypeError at installation. -/
theorem C7_amended_merge (e dRaw : Descriptor)
    (hv : optTruthy (assignDescriptor e dRaw).value = true)
    (hg : optTruthy (assignDescriptor e dRaw).get = true) :
    (resolveDescriptor (some e) dRaw).value = none ∧
    (resolveDescriptor (some e) dRaw).get = (assignDescriptor e dRaw).get ∧
    (resolveDescriptor (some e) dRaw).set = (assignDescriptor e dRaw).set ∧
    (resolveDescriptor (some e) dRaw).writable = none := by
  unfold resolveDescriptor
  simp only [hv, hg]
  cases hw : (assignDescriptor e dRaw).writable <;> simp [hw]

/-- Claim C7 witness existing descriptor: a truthy pre-existing value. -/
def c7_e1 : Descriptor :=
  ⟨some (.num 1), none, none, some true, some true, some true⟩

/-- Witness for the amended C7 at a truthy pre-existing value. -/
theorem C7_amended_merge_witness :
    (resolveDescriptor (some c7_e1) c7_raw).value = none ∧
    (resolveDescriptor (some c7_e1) c7_raw).get =
      (assignDescriptor c7_e1 c7_raw).get ∧
    (resolveDescriptor (some c7_e1) c7_raw).set =
      (assignDescriptor c7_e1 c7_raw).set ∧
    (resolveDescriptor (some c7_e1) c7_raw).writable = none :=
  C7_amended_merge c7_e1 c7_raw rfl rfl

/-- Claim C1 spec before decoration: `name('m')` with an explicit
`onCall` whose result is the truthy `42`. -/
def c1_m0 : MethodChain :=
  (MethodChain.name mcFresh (.str ("m"))).onCall
    (.fn (.mk (.constFn (.num 42)) false false))

/-- Claim C1 accumulator and heap after `decorate(target)` with the
owner at index 0 and the decoration target at index 1. -/
def c1_dec : MethodChain × List PObj :=
  MethodChain.decorate c1_m0 [pobjEmpty, pobjEmpty] (.ref 1)

/-- Heap after `c1_dec.build()`. -/
def c1_h1 : List PObj :=
  match MethodChain.build c1_dec.1 c1_dec.2 .undefined with
  | .ok (_, h, _) => h
  | .error _ => []

/-- The underlying method `_build` synthesizes in the C1 scenario: the
default method closing over the caller-supplied `onCall`. -/
def c1_underlying : FnVal :=
  .mk (.defaultMethod 0 .undefined (.fn (.mk (.constFn (.num 42)) false false)))
    false false

/-- C1, evaluated at the failing input: under `decorate`, the underlying
call's own result is the truthy `42`, the decoration was recorded in
the target's registry, and yet invoking the installed method returns
the decorated object (`ref 1`), not `42` — `callReturns` holds
decorate's `returnsFunction` (a function, not the boolean `true`), so
the `isTrue(callReturns)` test in the returns wrapper is false and the
`result || parentToDecorate` branch never runs. -/
theorem C1_decorate_returns :
    applyFn 8 c1_h1 c1_underlying (.ref 0) [] = some (.num 42, c1_h1) ∧
    truthy (.num 42) = true ∧
    (match c1_h1[1]? with
     | some p => p.metaDecorated
     | none => []) = [("m")] ∧
    invokeProp 9 c1_h1 1 ("m") [] = some (.ref 1, c1_h1) :=
  ⟨rfl, rfl, rfl, rfl⟩

/-- Claim C3 spec: `name('m').onCall(G).returns(R, true)` for arbitrary
caller handlers `G` and `R`. -/
def c3_m (g r : FnVal) : MethodChain :=
  ((MethodChain.name mcFresh (.str ("m"))).onCall (.fn g)).returns
    (.fn r) (.bool true)

/-- Heap after `(c3_m g r).build()` against a fresh parent. -/
def c3_h1 (g r : FnVal) : List PObj :=
  match MethodChain.build (c3_m g r) [pobjEmpty] .undefined with
  | .ok (_, h, _) => h
  | .error _ => []

/-- The heap the C3 build produces, written out: the synthesized method
is the returns wrapper around the default method that routes to the
caller's `onCall`. -/
def c3_heapE (gc : FnCode) (gd : Bool) (r : FnVal) : List PObj :=
  [{ parentRef := none, store := [],
     props := [(("m"),
       ⟨some (.fn (.mk (.returnsWrapper 0
           (.fn (.mk (.defaultMethod 0 .undefined (.fn (.mk gc gd false))) false false))
           (.fn r) (.bool true)) false false)),
         none, none, some false, some false, some false⟩)],
     protoProps := [], metaDecorated := [], metaShorthands := [],
     hasMeta := false }]

/-- Claim C3 concrete underlying handler: `onCall` returning `9`. -/
def c3_G : FnVal := .mk (.constFn (.num 9)) false false

/-- Claim C3 concrete return transform `R`: returns `3`. -/
def c3_R : FnVal := .mk (.constFn (.num 3)) false false

/-- C3: for every spec configured with `returns(R, callReturns=true)`,
invoking the installed method with arguments `args` returns the result
of invoking `R` with `[underlyingResult, ...args]`.  First conjunct:
for every stored `R`, every underlying method `g`, every heap, receiver
and argument list, applying the wrapper `_build` synthesizes for a
truthy `returns` and `callReturns === true` first runs the underlying
method and then returns `R` applied to the underlying result consed
onto the original arguments (threading the heap).  Second and third
conjuncts: building a representative such spec
(`name('m').onCall(G).returns(R, true)`) installs exactly that wrapper
with the stored `R` and `callReturns === true`, and invoking
`parent.m(5)` indeed yields `R(9, 5) = 3` rather than the underlying
`9`. -/
theorem C3_callReturns_composition :
    (∀ (fuel : Nat) (heap : List PObj) (pref : Nat) (g r : FnVal)
        (thisArg : JSVal) (args : List JSVal) (dec df : Bool),
      applyFn (fuel + 1) heap
          (.mk (.returnsWrapper pref (.fn g) (.fn r) (.bool true)) dec df)
          thisArg args =
        (match applyFn fuel heap g (.ref pref) args with
         | some (result, h') => applyFn fuel h' r (.ref pref) (result :: args)
         | none => none)) ∧
    c3_h1 c3_G c3_R = c3_heapE (.constFn (.num 9)) false c3_R ∧
    invokeProp 9 (c3_h1 c3_G c3_R) 0 ("m") [.num 5] =
      some (.num 3, c3_h1 c3_G c3_R) := by
  refine ⟨?_, rfl, rfl⟩
  intro fuel heap pref g r thisArg args dec df
  simp only [applyFn, isTrueJS, if_true]
  cases applyFn fuel heap g (JSVal.ref pref) args with
  | none => rfl
  | some p =>
    obtain ⟨result, h2⟩ := p
    rfl

/-- A key absent from an association list is appended by `assocSet`. -/
theorem assocSet_of_not_mem {α : Type} (k : String) (v : α) :
    ∀ (l : List (String × α)), k ∉ l.map Prod.fst →
      assocSet l k v = l ++ [(k, v)]
  | [], _ => rfl
  | (k', v') :: rest, h => by
    simp only [List.map_cons, List.mem_cons] at h
    push_neg at h
    unfold assocSet
    rw [if_neg (fun he => h.1 he.symm),
      assocSet_of_not_mem k v rest h.2]
    rfl

/-- The source's drop cascade and the spec's keep predicate are
complementary. -/
theorem specKeep_eq_not_dropV (v : JSVal) : specKeep v = !dropV v := by
  cases v <;> rfl

/-- The reduce loop of `ChainedMap.clean`, run from any accumulator
whose keys are fresh for the remaining input, appends exactly the
spec-kept entries. -/
theorem clean_foldl_eq :
    ∀ (o acc : List (String × JSVal)),
      (∀ x ∈ o.map Prod.fst, x ∉ acc.map Prod.fst) →
      (o.map Prod.fst).Nodup →
      List.foldl
          (fun acc kv => if dropV kv.2 then acc else assocSet acc kv.1 kv.2)
          acc o =
        acc ++ o.filter (fun kv => specKeep kv.2)
  | [], acc, _, _ => by simp
  | (k, v) :: tl, acc, hdis, hnd => by
    simp only [List.map_cons, List.nodup_cons] at hnd
    simp only [List.foldl_cons]
    by_cases hdv : dropV v = true
    · rw [if_pos hdv]
      rw [clean_foldl_eq tl acc
        (fun x hx => hdis x (by simp [hx])) hnd.2]
      have hks : specKeep v = false := by
        rw [specKeep_eq_not_dropV, hdv]
        rfl
      simp [List.filter_cons, hks]
    · rw [if_neg hdv]
      have hkn : k ∉ acc.map Prod.fst := hdis k (by simp)
      rw [assocSet_of_not_mem k v acc hkn]
      have hdis' : ∀ x ∈ tl.map Prod.fst,
          x ∉ (acc ++ [(k, v)]).map Prod.fst := by
        intro x hx
        simp only [List.map_append, List.mem_append, List.map_cons,
          List.map_nil, List.mem_singleton]
        rintro (h | h)
        · exact hdis x (by simp [hx]) h
        · exact hnd.1 (h ▸ hx)
      rw [clean_foldl_eq tl (acc ++ [(k, v)]) hdis' hnd.2]
      have hks : specKeep v = true := by
        rw [specKeep_eq_not_dropV, Bool.eq_false_iff.mpr hdv]
        rfl
      simp [List.filter_cons, hks, List.append_assoc]

/-- C9: for every input mapping with unique keys (as `Object.keys`
guarantees in JS), `clean(obj)` returns exactly the entries whose value
is not undefined, not null, not an empty sequence, and not an empty
plain mapping — every other entry, including falsy values such as
`false`, `0` and the empty string, is kept with its value unchanged
(`specKeep` spells out the spec's wording). -/
theorem C9_clean_filters (o : List (String × JSVal))
    (h : (o.map Prod.fst).Nodup) :
    ChainedMap.clean o = o.filter (fun kv => specKeep kv.2) := by
  unfold ChainedMap.clean
  rw [clean_foldl_eq o [] (by simp) h]
  simp

/-- Claim C9 witness mapping: dropped and kept (including falsy)
values side by side. -/
def c9_o : List (String × JSVal) :=
  [(("a"), .undefined), (("b"), .null), (("c"), .arr []), (("d"), .obj []),
   (("e"), .bool false), (("f"), .num 0), (("g"), .str ("")),
   (("h"), .num 7), (("i"), .arr [.num 1]), (("j"), .obj [(("k"), .null)])]

/-- Witness for C9: the falsy entries survive, the empty/none entries
are dropped. -/
theorem C9_clean_filters_witness :
    ChainedMap.clean c9_o = c9_o.filter (fun kv => specKeep kv.2) ∧
    ChainedMap.clean c9_o =
      [(("e"), .bool false), (("f"), .num 0), (("g"), .str ("")),
       (("h"), .num 7), (("i"), .arr [.num 1]),
       (("j"), .obj [(("k"), .null)])] :=
  ⟨C9_clean_filters c9_o (by decide), rfl⟩

end ChainAble
